import Mathlib

set_option maxRecDepth 10000

/-!
Shallow embedding of the Lox lexical scanner (src/src/scanner.rs, src/src/token.rs,
src/src/lib.rs). The source text is modelled as its byte sequence, one Char per
byte: the scanner's design scope is ASCII input (spec section 1 and 6), where the
Rust code's byte indexing (source.as_bytes()[i] as char) and character indexing
(source.chars().nth(i)) coincide, which the code itself relies on.
-/

/-- Token kinds, mirroring the Rust enum TokenType in src/token.rs. -/
inductive TokenType where
  | LEFT_PAREN | RIGHT_PAREN | LEFT_BRACE | RIGHT_BRACE
  | COMMA | DOT | MINUS | PLUS | SEMICOLON | SLASH | STAR
  | BANG | BANG_EQUAL | EQUAL | EQUAL_EQUAL
  | GREATER | GREATER_EQUAL | LESS | LESS_EQUAL
  | IDENTIFIER | STRING | NUMBER
  | AND | CLASS | ELSE | FALSE | FUN | FOR | IF | NIL | OR
  | PRINT | RETURN | SUPER | THIS | TRUE | VAR | WHILE
  | EOF
  deriving DecidableEq, Fintype

open TokenType

/-- The derived Debug rendering of a TokenType: the variant name, as printed by
the Rust formatter for the token dump. -/
def TokenType.debugName : TokenType → List Char
  | .LEFT_PAREN => "LEFT_PAREN".toList
  | .RIGHT_PAREN => "RIGHT_PAREN".toList
  | .LEFT_BRACE => "LEFT_BRACE".toList
  | .RIGHT_BRACE => "RIGHT_BRACE".toList
  | .COMMA => "COMMA".toList
  | .DOT => "DOT".toList
  | .MINUS => "MINUS".toList
  | .PLUS => "PLUS".toList
  | .SEMICOLON => "SEMICOLON".toList
  | .SLASH => "SLASH".toList
  | .STAR => "STAR".toList
  | .BANG => "BANG".toList
  | .BANG_EQUAL => "BANG_EQUAL".toList
  | .EQUAL => "EQUAL".toList
  | .EQUAL_EQUAL => "EQUAL_EQUAL".toList
  | .GREATER => "GREATER".toList
  | .GREATER_EQUAL => "GREATER_EQUAL".toList
  | .LESS => "LESS".toList
  | .LESS_EQUAL => "LESS_EQUAL".toList
  | .IDENTIFIER => "IDENTIFIER".toList
  | .STRING => "STRING".toList
  | .NUMBER => "NUMBER".toList
  | .AND => "AND".toList
  | .CLASS => "CLASS".toList
  | .ELSE => "ELSE".toList
  | .FALSE => "FALSE".toList
  | .FUN => "FUN".toList
  | .FOR => "FOR".toList
  | .IF => "IF".toList
  | .NIL => "NIL".toList
  | .OR => "OR".toList
  | .PRINT => "PRINT".toList
  | .RETURN => "RETURN".toList
  | .SUPER => "SUPER".toList
  | .THIS => "THIS".toList
  | .TRUE => "TRUE".toList
  | .VAR => "VAR".toList
  | .WHILE => "WHILE".toList
  | .EOF => "EOF".toList

/-- A token, mirroring the Rust struct Token in src/token.rs. The literal is the
String field of the Rust struct (empty when the token carries no literal). -/
structure Token where
  token_type : TokenType
  lexeme : List Char
  literal : List Char
  line : Nat
  deriving DecidableEq

/-- The static keyword table built in build_scanner. The Rust HashMap with its
exact-equality get is modelled as an association list with List.lookup; the
sixteen keys are distinct, so lookup order is irrelevant. -/
def keywords : List (List Char × TokenType) :=
  [("and".toList, AND), ("class".toList, CLASS), ("else".toList, ELSE),
   ("false".toList, FALSE), ("for".toList, FOR), ("fun".toList, FUN),
   ("if".toList, IF), ("nil".toList, NIL), ("or".toList, OR),
   ("print".toList, PRINT), ("return".toList, RETURN), ("super".toList, SUPER),
   ("this".toList, THIS), ("true".toList, TRUE), ("var".toList, VAR),
   ("while".toList, WHILE)]

/-- Rust free function is_alpha in scanner.rs. -/
def is_alpha (c : Char) : Bool :=
  decide (('a' ≤ c ∧ c ≤ 'z') ∨ ('A' ≤ c ∧ c ≤ 'Z') ∨ c = '_')

/-- Rust free function is_digit in scanner.rs. -/
def is_digit (c : Char) : Bool := decide ('0' ≤ c ∧ c ≤ '9')

/-- Rust free function is_alpha_numeric in scanner.rs. -/
def is_alpha_numeric (c : Char) : Bool := is_alpha c || is_digit c

/-- Exact decimal value of a numeric lexeme, kept as its integer-part and
fraction-part digit strings. This models the f64 value the Rust code parses
from the lexeme with src.parse, except that the model keeps the exact decimal
where the program stores its binary64 rounding. The two pipelines render
identical literal strings on the following fidelity domain: the lexeme's
digit value (dot removed, decDigitsVal below) is less than 2 to the 52, and
the value is not an exact midpoint between two multiples of one tenth
(dec_tie below). On that domain the decimal-to-double rounding error, at most
the value times 2 to the minus 53, is strictly smaller than the distance from
ten times the value to every half-integer, so the one-decimal formatting of
the double rounds the same way as the exact decimal and is never itself a
tie; and it is smaller than the gap separating the trimmed lexeme from any
decimal with fewer digits, so the shortest round-trip rendering of the double
is the trimmed lexeme. At exact midpoints such as 1.05, or at digit values at
or beyond 2 to the 52 such as 9007199254740993, the binary64 bits decide the
program's rendering and this model may differ; the claim C2 theorem below
therefore carries the two bounds as hypotheses, and every concrete numeric
lexeme evaluated in this file lies inside the domain. -/
structure Dec where
  intPart : List Char
  fracPart : List Char
  deriving DecidableEq

/-- Split a numeric lexeme (digits, optionally a dot and more digits) at the
dot, keeping the exact decimal. Models the f64 parse of such a lexeme on the
fidelity domain described on Dec. -/
def parseDec (lex : List Char) : Dec :=
  ⟨lex.takeWhile (fun c => !(c == '.')), (lex.dropWhile (fun c => !(c == '.'))).drop 1⟩

/-- Numeric value of a digit string. -/
def natOfDigits (l : List Char) : Nat := l.foldl (fun a c => 10 * a + (c.toNat - 48)) 0

/-- Ten times the value of a Dec, rounded to the nearest integer: the integer
whose digits the Rust one-decimal float formatting prints, on the fidelity
domain described on Dec. The midpoint branch (ties to even) exists only to
make the function total: it is reached exactly when dec_tie holds, which the
fidelity domain excludes, and a binary64 value parsed from a lexeme in the
domain is never at a one-decimal formatting midpoint. -/
def roundTenths (d : Dec) : Nat :=
  match d.fracPart with
  | [] => natOfDigits d.intPart * 10
  | f :: rest =>
      let t0 := natOfDigits d.intPart * 10 + (f.toNat - 48)
      let r := natOfDigits rest
      let s := 10 ^ rest.length
      if s < 2 * r then t0 + 1
      else if 2 * r < s then t0
      else if t0 % 2 = 0 then t0 else t0 + 1

/-- The value of the lexeme's digit string with the dot removed: the numerator
of the exact decimal. The fidelity domain described on Dec requires it below
2 to the 52. -/
def decDigitsVal (d : Dec) : Nat := natOfDigits (d.intPart ++ d.fracPart)

/-- Whether the exact decimal value lies exactly midway between two multiples
of one tenth: the case in which one-decimal rounding of the exact decimal is
a tie and the binary64 bits of the parsed value, not the decimal digits,
decide the program's rendering. The fidelity domain described on Dec excludes
it. -/
def dec_tie (d : Dec) : Bool :=
  match d.fracPart with
  | [] => false
  | _ :: rest => decide (2 * natOfDigits rest = 10 ^ rest.length)

/-- The one-decimal rendering of a numeric value, as produced by the Rust
format specifier with precision one on the parsed f64, on the fidelity domain
described on Dec. -/
def format_one_decimal (d : Dec) : List Char :=
  Nat.toDigits 10 (roundTenths d / 10) ++ ['.', Nat.digitChar (roundTenths d % 10)]

/-- The plain rendering of the numeric value: shortest decimal form, no
trailing fractional zeros, no decimal point for integral values. On the
fidelity domain described on Dec this equals the Rust f64 to_string (shortest
round-trip rendering) of the parsed value; outside the domain the two may
differ. -/
def toStringDec (d : Dec) : List Char :=
  let ip0 := d.intPart.dropWhile (fun c => c == '0')
  let ip := if ip0.isEmpty then ['0'] else ip0
  let fp := (d.fracPart.reverse.dropWhile (fun c => c == '0')).reverse
  if fp.isEmpty then ip else ip ++ '.' :: fp

/-- Rust str ends_with, restricted to the use in with_decimal. -/
def ends_with (l suf : List Char) : Bool :=
  decide (l.reverse.take suf.length = suf.reverse)

/-- Rust free function with_decimal in scanner.rs, instantiated at f64 (the
NUMBER call site): format the value to one decimal place; keep that form when
it ends in dot-zero, otherwise fall back to the plain to_string rendering.
Faithful on the fidelity domain described on Dec. -/
def with_decimal_dec (value : Dec) : List Char :=
  let formatted := format_one_decimal value
  if ends_with formatted ['.', '0'] then formatted else toStringDec value

/-- Rust free function with_decimal in scanner.rs, instantiated at String (the
STRING call site): formatting a string with precision one truncates it to at
most one character, which can never carry the two-character dot-zero suffix, so
the function always returns the string itself. -/
def with_decimal_str (value : List Char) : List Char :=
  let formatted := value.take 1
  if ends_with formatted ['.', '0'] then formatted else value

/-- The scanner state, mirroring the Rust struct Scanner. The static keyword
table field is modelled by the global keywords list above. -/
structure Scanner where
  source : List Char
  tokens : List Token
  start : Nat
  current : Nat
  line : Nat
  has_error : Bool
  deriving DecidableEq

/-- Rust free function build_scanner. -/
def build_scanner (s : List Char) : Scanner :=
  { source := s, tokens := [], start := 0, current := 0, line := 1, has_error := false }

/-- Scanner::is_at_end. -/
def is_at_end (st : Scanner) : Bool := decide (st.source.length ≤ st.current)

/-- Scanner::advance (the cursor bump; the Rust method's commented-out return
value is unused). -/
def advance (st : Scanner) : Scanner := { st with current := st.current + 1 }

/-- Scanner::match_char: returns whether the next character matched, together
with the resulting state (advanced exactly when it matched). The unchecked
indexing of the Rust code is modelled with a default character. -/
def match_char (st : Scanner) (expected : Char) : Bool × Scanner :=
  if is_at_end st then (false, st)
  else if ¬ (st.source.getD st.current '\x00' = expected) then (false, st)
  else (true, { st with current := st.current + 1 })

/-- Scanner::peek. -/
def peek (st : Scanner) : Char :=
  if is_at_end st then '\x00' else st.source.getD st.current '\x00'

/-- Scanner::peek_next. -/
def peek_next (st : Scanner) : Char :=
  if st.source.length ≤ st.current + 1 then '\x00' else st.source.getD (st.current + 1) '\x00'

/-- The slice source from a to b, as in the Rust range indexing. -/
def substr (s : List Char) (a b : Nat) : List Char := (s.take b).drop a

/-- Scanner::add_token_literal, with the literal argument already passed
through with_decimal at the two call sites that supply one (the Rust function
is generic and applies with_decimal to every supplied literal; the None case
stores the empty string). -/
def add_token_with (st : Scanner) (tt : TokenType) (lit : List Char) : Scanner :=
  { st with tokens :=
      st.tokens ++ [⟨tt, substr st.source st.start st.current, lit, st.line⟩] }

/-- Scanner::add_token. -/
def add_token (st : Scanner) (tt : TokenType) : Scanner := add_token_with st tt []

/-- The while loop inside Scanner::identifier, with explicit fuel; every call
passes fuel at least the remaining source length, which the loop never
exhausts since each iteration consumes one character. -/
def identLoopF : Nat → Scanner → Scanner
  | 0, st => st
  | fuel + 1, st => if is_alpha_numeric (peek st) then identLoopF fuel (advance st) else st

/-- The digit-consuming while loops inside Scanner::number, with explicit fuel. -/
def digitsLoopF : Nat → Scanner → Scanner
  | 0, st => st
  | fuel + 1, st => if is_digit (peek st) then digitsLoopF fuel (advance st) else st

/-- The comment-skipping while loop in Scanner::scan_token, with explicit fuel. -/
def commentLoopF : Nat → Scanner → Scanner
  | 0, st => st
  | fuel + 1, st =>
      if ¬ (peek st = '\n') ∧ is_at_end st = false then commentLoopF fuel (advance st) else st

/-- The while loop inside Scanner::string, with explicit fuel: stop before a
closing quote or at end of input, counting embedded newlines. -/
def stringLoopF : Nat → Scanner → Scanner
  | 0, st => st
  | fuel + 1, st =>
      if ¬ (peek st = '"') ∧ is_at_end st = false then
        stringLoopF fuel (advance (if peek st = '\n' then { st with line := st.line + 1 } else st))
      else st

/-- Scanner::identifier. -/
def identifier (st : Scanner) : Scanner :=
  let st1 := identLoopF (st.source.length - st.current) st
  add_token st1 ((List.lookup (substr st1.source st1.start st1.current) keywords).getD IDENTIFIER)

/-- Scanner::string: scan to the closing quote; on end of input set the error
flag and emit nothing, otherwise consume the quote and emit a STRING token
whose literal is the text strictly between the quotes. -/
def string (st : Scanner) : Scanner :=
  let st1 := stringLoopF (st.source.length - st.current) st
  if is_at_end st1 then { st1 with has_error := true }
  else
    let st2 := advance st1
    add_token_with st2 STRING
      (with_decimal_str (substr st2.source (st2.start + 1) (st2.current - 1)))

/-- Scanner::number: consume the digit run, then a dot and a further digit run
only when the dot is followed by a digit; parse and render the literal. -/
def number (st : Scanner) : Scanner :=
  let st1 := digitsLoopF (st.source.length - st.current) st
  let st2 :=
    if peek st1 = '.' ∧ is_digit (peek_next st1) then
      let stmid := advance st1
      digitsLoopF (stmid.source.length - stmid.current) stmid
    else st1
  add_token_with st2 NUMBER (with_decimal_dec (parseDec (substr st2.source st2.start st2.current)))

/-- The dispatch on the consumed character inside Scanner::scan_token,
mirroring the Rust match arm for arm, including the stray arm for the
character o that emits OR when the next character is r and otherwise emits
nothing. -/
def scan_token_aux (c : Char) (st : Scanner) : Scanner :=
  if c = '(' then add_token st LEFT_PAREN
  else if c = ')' then add_token st RIGHT_PAREN
  else if c = '\x7b' then add_token st LEFT_BRACE
  else if c = '\x7d' then add_token st RIGHT_BRACE
  else if c = ',' then add_token st COMMA
  else if c = '.' then add_token st DOT
  else if c = '-' then add_token st MINUS
  else if c = '+' then add_token st PLUS
  else if c = ';' then add_token st SEMICOLON
  else if c = '*' then add_token st STAR
  else if c = '!' then
    (let m := match_char st '='
     if m.1 then add_token m.2 BANG_EQUAL else add_token m.2 BANG)
  else if c = '=' then
    (let m := match_char st '='
     if m.1 then add_token m.2 EQUAL_EQUAL else add_token m.2 EQUAL)
  else if c = '<' then
    (let m := match_char st '='
     if m.1 then add_token m.2 LESS_EQUAL else add_token m.2 LESS)
  else if c = '>' then
    (let m := match_char st '='
     if m.1 then add_token m.2 GREATER_EQUAL else add_token m.2 GREATER)
  else if c = '/' then
    (let m := match_char st '/'
     if m.1 then commentLoopF (m.2.source.length - m.2.current) m.2 else add_token m.2 SLASH)
  else if c = ' ' ∨ c = '\x0d' ∨ c = '\t' then st
  else if c = '\n' then { st with line := st.line + 1 }
  else if c = '"' then string st
  else if c = 'o' then
    (let m := match_char st 'r'
     if m.1 then add_token m.2 OR else m.2)
  else if is_digit c then number st
  else if is_alpha c then identifier st
  else { st with has_error := true }

/-- Scanner::scan_token: consume one character and dispatch on it. The error
branch prints a diagnostic to the sink and sets the sticky flag; only the flag
is modelled. -/
def scan_token (st : Scanner) : Scanner :=
  scan_token_aux (st.source.getD st.current '\x00') (advance st)

/-- The outer while loop of Scanner::scan_tokens, with explicit fuel: mark the
lexeme start and dispatch, until the cursor reaches the end. Remaining source
length is always sufficient fuel because every dispatch consumes at least one
character (proved below). -/
def scanLoopF : Nat → Scanner → Scanner
  | 0, st => st
  | fuel + 1, st =>
      if st.current < st.source.length then
        scanLoopF fuel (scan_token { st with start := st.current })
      else st

/-- Scanner::scan_tokens: run the outer loop, then append the EOF sentinel
token carrying the final line number. -/
def scan_tokens (st : Scanner) : Scanner :=
  let st1 := scanLoopF (st.source.length - st.current) st
  { st1 with tokens := st1.tokens ++ [⟨EOF, [], [], st1.line⟩] }

/-- One whole scan of a source text from a fresh scanner, as Lox::run does. -/
def scanRun (s : List Char) : Scanner := scan_tokens (build_scanner s)

/-- The literal field as rendered by Token::to_string: the text null when the
stored literal string is empty. -/
def renderLiteral (t : Token) : List Char :=
  if t.literal.isEmpty then "null".toList else t.literal

/-- Token::to_string: debug name of the kind, the lexeme, and the rendered
literal, separated by single spaces. -/
def Token.to_string (t : Token) : List Char :=
  t.token_type.debugName ++ ' ' :: t.lexeme ++ ' ' :: renderLiteral t

/-- The debug text dump printed by Lox::run: one line per token of the
returned stream, followed by the hardcoded final line EOF-space-space-null. -/
def runDump (s : List Char) : List (List Char) :=
  ((scanRun s).tokens.map Token.to_string) ++ ["EOF  null".toList]

/-- Number of newline characters in a character list. -/
def nl (l : List Char) : Nat := l.count '\n'

/-- The scan invariant: the cursor is in bounds and the line counter is one
more than the number of newlines consumed so far. -/
def ScanInv (st : Scanner) : Prop :=
  st.current ≤ st.source.length ∧ st.line = 1 + nl (st.source.take st.current)

/-- What the scan guarantees of every token emitted by the dispatch loop: it
is not an EOF sentinel, a NUMBER token's literal is the rendering of its
parsed lexeme, and the token occurs in the source at some position with its
line equal to one plus the newlines strictly before that position plus the
newlines inside the lexeme itself. -/
def GoodTok (s : List Char) (t : Token) : Prop :=
  t.token_type ≠ EOF ∧
  (t.token_type = NUMBER → t.literal = with_decimal_dec (parseDec t.lexeme)) ∧
  ∃ i, i + t.lexeme.length ≤ s.length ∧ substr s i (i + t.lexeme.length) = t.lexeme ∧
    t.line = 1 + nl (s.take i) + nl t.lexeme

lemma is_at_end_true_iff (st : Scanner) : is_at_end st = true ↔ st.source.length ≤ st.current := by
  simp [is_at_end]

lemma is_at_end_false_iff (st : Scanner) : is_at_end st = false ↔ st.current < st.source.length := by
  simp [is_at_end]

lemma peek_eq_getD (st : Scanner) : peek st = st.source.getD st.current '\x00' := by
  unfold peek
  split
  · next h => rw [List.getD_eq_default _ _ ((is_at_end_true_iff st).mp h)]
  · rfl

lemma peek_next_eq_getD (st : Scanner) :
    peek_next st = st.source.getD (st.current + 1) '\x00' := by
  unfold peek_next
  split
  · next h => rw [List.getD_eq_default _ _ h]
  · rfl

lemma nl_append (a b : List Char) : nl (a ++ b) = nl a + nl b := List.count_append _ a b

lemma take_split (s : List Char) (a b : Nat) (h : a ≤ b) :
    s.take b = s.take a ++ substr s a b := by
  conv_lhs => rw [← List.take_append_drop a (s.take b)]
  rw [List.take_take, inf_eq_left.mpr h]
  rfl

lemma nl_take_split (s : List Char) (a b : Nat) (h : a ≤ b) :
    nl (s.take b) = nl (s.take a) + nl (substr s a b) := by
  conv_lhs => rw [take_split s a b h]
  exact nl_append _ _

lemma take_succ_getD (s : List Char) (n : Nat) (h : n < s.length) :
    s.take (n + 1) = s.take n ++ [s.getD n '\x00'] := by
  rw [List.take_succ, List.getElem?_eq_getElem h, List.getD_eq_getElem?_getD,
    List.getElem?_eq_getElem h]
  rfl

lemma nl_take_succ (s : List Char) (n : Nat) (h : n < s.length) :
    nl (s.take (n + 1)) = nl (s.take n) + (if s.getD n '\x00' = '\n' then 1 else 0) := by
  rw [take_succ_getD s n h, nl_append]
  congr 1
  simp only [nl, List.count_singleton, beq_iff_eq]

lemma substr_length (s : List Char) (a b : Nat) (h1 : a ≤ b) (h2 : b ≤ s.length) :
    (substr s a b).length = b - a := by
  simp only [substr, List.length_drop, List.length_take]
  omega

lemma scanInv_advance (st : Scanner) (h : ScanInv st) (hlt : st.current < st.source.length)
    (hc : ¬ st.source.getD st.current '\x00' = '\n') : ScanInv (advance st) := by
  obtain ⟨h1, h2⟩ := h
  constructor
  · simpa [advance] using hlt
  · show st.line = 1 + nl (st.source.take (st.current + 1))
    rw [nl_take_succ _ _ hlt, if_neg hc]
    omega

lemma scanInv_advance_nl (st : Scanner) (h : ScanInv st) (hlt : st.current < st.source.length)
    (hc : st.source.getD st.current '\x00' = '\n') :
    ScanInv (advance { st with line := st.line + 1 }) := by
  obtain ⟨h1, h2⟩ := h
  constructor
  · simpa [advance] using hlt
  · show st.line + 1 = 1 + nl (st.source.take (st.current + 1))
    rw [nl_take_succ _ _ hlt, if_pos hc]
    omega

lemma digitsLoopF_basic (f : Nat) (st : Scanner) :
    (digitsLoopF f st).source = st.source ∧ (digitsLoopF f st).tokens = st.tokens ∧
    (digitsLoopF f st).start = st.start ∧ (digitsLoopF f st).has_error = st.has_error ∧
    (digitsLoopF f st).line = st.line ∧ st.current ≤ (digitsLoopF f st).current := by
  induction f generalizing st with
  | zero => simp [digitsLoopF]
  | succ f ih =>
      simp only [digitsLoopF]
      split
      · obtain ⟨a, b, c, d, e, g⟩ := ih (advance st)
        exact ⟨a, b, c, d, e, le_trans (Nat.le_succ _) g⟩
      · simp

lemma identLoopF_basic (f : Nat) (st : Scanner) :
    (identLoopF f st).source = st.source ∧ (identLoopF f st).tokens = st.tokens ∧
    (identLoopF f st).start = st.start ∧ (identLoopF f st).has_error = st.has_error ∧
    (identLoopF f st).line = st.line ∧ st.current ≤ (identLoopF f st).current := by
  induction f generalizing st with
  | zero => simp [identLoopF]
  | succ f ih =>
      simp only [identLoopF]
      split
      · obtain ⟨a, b, c, d, e, g⟩ := ih (advance st)
        exact ⟨a, b, c, d, e, le_trans (Nat.le_succ _) g⟩
      · simp

lemma commentLoopF_basic (f : Nat) (st : Scanner) :
    (commentLoopF f st).source = st.source ∧ (commentLoopF f st).tokens = st.tokens ∧
    (commentLoopF f st).start = st.start ∧ (commentLoopF f st).has_error = st.has_error ∧
    (commentLoopF f st).line = st.line ∧ st.current ≤ (commentLoopF f st).current := by
  induction f generalizing st with
  | zero => simp [commentLoopF]
  | succ f ih =>
      simp only [commentLoopF]
      split
      · obtain ⟨a, b, c, d, e, g⟩ := ih (advance st)
        exact ⟨a, b, c, d, e, le_trans (Nat.le_succ _) g⟩
      · simp

lemma stringLoopF_basic (f : Nat) (st : Scanner) :
    (stringLoopF f st).source = st.source ∧ (stringLoopF f st).tokens = st.tokens ∧
    (stringLoopF f st).start = st.start ∧ (stringLoopF f st).has_error = st.has_error ∧
    st.current ≤ (stringLoopF f st).current := by
  induction f generalizing st with
  | zero => simp [stringLoopF]
  | succ f ih =>
      simp only [stringLoopF]
      split
      · by_cases hnl : peek st = '\n'
        · obtain ⟨a, b, c, d, g⟩ := ih (advance { st with line := st.line + 1 })
          rw [if_pos hnl]
          exact ⟨a, b, c, d, le_trans (Nat.le_succ _) g⟩
        · obtain ⟨a, b, c, d, g⟩ := ih (advance st)
          rw [if_neg hnl]
          exact ⟨a, b, c, d, le_trans (Nat.le_succ _) g⟩
      · simp

lemma digitsLoopF_scanInv (f : Nat) (st : Scanner) (h : ScanInv st) :
    ScanInv (digitsLoopF f st) := by
  induction f generalizing st with
  | zero => simpa [digitsLoopF]
  | succ f ih =>
      simp only [digitsLoopF]
      split
      · next hd =>
          have hlt : st.current < st.source.length := by
            by_contra hge
            push_neg at hge
            rw [peek_eq_getD, List.getD_eq_default _ _ hge] at hd
            exact absurd hd (by decide)
          have hc : ¬ st.source.getD st.current '\x00' = '\n' := by
            intro he
            rw [peek_eq_getD, he] at hd
            exact absurd hd (by decide)
          exact ih _ (scanInv_advance st h hlt hc)
      · exact h

lemma identLoopF_scanInv (f : Nat) (st : Scanner) (h : ScanInv st) :
    ScanInv (identLoopF f st) := by
  induction f generalizing st with
  | zero => simpa [identLoopF]
  | succ f ih =>
      simp only [identLoopF]
      split
      · next hd =>
          have hlt : st.current < st.source.length := by
            by_contra hge
            push_neg at hge
            rw [peek_eq_getD, List.getD_eq_default _ _ hge] at hd
            exact absurd hd (by decide)
          have hc : ¬ st.source.getD st.current '\x00' = '\n' := by
            intro he
            rw [peek_eq_getD, he] at hd
            exact absurd hd (by decide)
          exact ih _ (scanInv_advance st h hlt hc)
      · exact h

lemma commentLoopF_scanInv (f : Nat) (st : Scanner) (h : ScanInv st) :
    ScanInv (commentLoopF f st) := by
  induction f generalizing st with
  | zero => simpa [commentLoopF]
  | succ f ih =>
      simp only [commentLoopF]
      split
      · next hd =>
          obtain ⟨hne, hend⟩ := hd
          have hlt : st.current < st.source.length := (is_at_end_false_iff st).mp hend
          have hc : ¬ st.source.getD st.current '\x00' = '\n' := by
            rw [← peek_eq_getD]; exact hne
          exact ih _ (scanInv_advance st h hlt hc)
      · exact h

lemma stringLoopF_scanInv (f : Nat) (st : Scanner) (h : ScanInv st) :
    ScanInv (stringLoopF f st) := by
  induction f generalizing st with
  | zero => simpa [stringLoopF]
  | succ f ih =>
      simp only [stringLoopF]
      split
      · next hd =>
          obtain ⟨hne, hend⟩ := hd
          have hlt : st.current < st.source.length := (is_at_end_false_iff st).mp hend
          by_cases hnl : peek st = '\n'
          · rw [if_pos hnl]
            refine ih _ (scanInv_advance_nl st h hlt ?_)
            rw [← peek_eq_getD]; exact hnl
          · rw [if_neg hnl]
            refine ih _ (scanInv_advance st h hlt ?_)
            rw [← peek_eq_getD]; exact hnl
      · exact h

lemma stringLoopF_post (f : Nat) (st : Scanner) (h : st.source.length ≤ st.current + f) :
    is_at_end (stringLoopF f st) = true ∨ peek (stringLoopF f st) = '"' := by
  induction f generalizing st with
  | zero =>
      left
      rw [show stringLoopF 0 st = st from rfl, is_at_end_true_iff]
      omega
  | succ f ih =>
      simp only [stringLoopF]
      split
      · next hd =>
          by_cases hnl : peek st = '\n'
          · rw [if_pos hnl]
            exact ih _ (by simpa [advance] using by omega)
          · rw [if_neg hnl]
            exact ih _ (by simpa [advance] using by omega)
      · next hd =>
          rcases not_and_or.mp hd with h1 | h2
          · right
            exact not_not.mp h1
          · left
            simpa using h2

lemma digitsLoopF_run (m : Nat) : ∀ (f : Nat) (st : Scanner), m ≤ f →
    (∀ i, i < m → is_digit (st.source.getD (st.current + i) '\x00') = true) →
    is_digit (st.source.getD (st.current + m) '\x00') = false →
    digitsLoopF f st = { st with current := st.current + m } := by
  induction m with
  | zero =>
      intro f st _ _ hstop
      have hpeek : is_digit (peek st) = false := by
        rw [peek_eq_getD]
        simpa using hstop
      cases f with
      | zero => cases st; rfl
      | succ f =>
          simp only [digitsLoopF]
          rw [if_neg (by simp [hpeek])]
          cases st
          rfl
  | succ m ih =>
      intro f st hf hdig hstop
      cases f with
      | zero => omega
      | succ f =>
          have hpeek : is_digit (peek st) = true := by
            rw [peek_eq_getD]
            simpa using hdig 0 (by omega)
          simp only [digitsLoopF]
          rw [if_pos (by simp [hpeek])]
          rw [ih f (advance st) (by omega)
            (fun i hi => by
              have := hdig (i + 1) (by omega)
              simpa [advance, show st.current + 1 + i = st.current + (i + 1) from by omega]
                using this)
            (by
              have := hstop
              simpa [advance, show st.current + 1 + m = st.current + (m + 1) from by omega]
                using this)]
          cases st
          simp only [advance, Scanner.mk.injEq, and_true, true_and]
          omega

lemma stringLoopF_noquote (f : Nat) : ∀ (st : Scanner), st.current ≤ st.source.length →
    st.source.length ≤ st.current + f → ('"' ∉ st.source.drop st.current) →
    ∃ n, stringLoopF f st = { st with current := st.source.length, line := n } := by
  induction f with
  | zero =>
      intro st h1 h2 _
      have he : st.current = st.source.length := by omega
      exact ⟨st.line, by rw [show stringLoopF 0 st = st from rfl, ← he]⟩
  | succ f ih =>
      intro st h1 h2 hq
      by_cases hlt : st.current < st.source.length
      · have hdrop : st.source.drop st.current =
            st.source[st.current] :: st.source.drop (st.current + 1) :=
          List.drop_eq_getElem_cons hlt
        have hgd : st.source.getD st.current '\x00' = st.source[st.current] := by
          rw [List.getD_eq_getElem?_getD, List.getElem?_eq_getElem hlt]
          rfl
        have hhead : ¬ st.source[st.current] = '"' := by
          intro hcq
          exact hq (by rw [hdrop, hcq]; exact List.mem_cons_self _ _)
        have htail : '"' ∉ st.source.drop (st.current + 1) := by
          intro hmem
          exact hq (by rw [hdrop]; exact List.mem_cons_of_mem _ hmem)
        have hcond : ¬ (peek st = '"') ∧ is_at_end st = false := by
          constructor
          · rw [peek_eq_getD, hgd]
            exact hhead
          · exact (is_at_end_false_iff st).mpr hlt
        simp only [stringLoopF]
        rw [if_pos hcond]
        by_cases hnl : peek st = '\n'
        · rw [if_pos hnl]
          obtain ⟨n, hn⟩ := ih (advance { st with line := st.line + 1 })
            (by simpa [advance] using hlt) (by simp [advance]; omega)
            (by simpa [advance] using htail)
          refine ⟨n, ?_⟩
          rw [hn]
          simp [advance]
        · rw [if_neg hnl]
          obtain ⟨n, hn⟩ := ih (advance st)
            (by simpa [advance] using hlt) (by simp [advance]; omega)
            (by simpa [advance] using htail)
          refine ⟨n, ?_⟩
          rw [hn]
          simp [advance]
      · have he : st.current = st.source.length := by omega
        have hcond : ¬ (¬ (peek st = '"') ∧ is_at_end st = false) := by
          rintro ⟨-, hend⟩
          rw [is_at_end_false_iff] at hend
          omega
        simp only [stringLoopF]
        rw [if_neg hcond]
        exact ⟨st.line, by cases st; rw [← he]⟩

lemma match_char_true (st : Scanner) (e : Char) (h : (match_char st e).1 = true) :
    (match_char st e).2 = { st with current := st.current + 1 } ∧
    st.current < st.source.length ∧ st.source.getD st.current '\x00' = e := by
  unfold match_char at h ⊢
  by_cases h1 : is_at_end st = true
  · rw [if_pos h1] at h
    simp at h
  · rw [if_neg h1] at h ⊢
    by_cases h2 : ¬ (st.source.getD st.current '\x00' = e)
    · rw [if_pos h2] at h
      simp at h
    · rw [if_neg h2] at h ⊢
      refine ⟨rfl, ?_, not_not.mp h2⟩
      rw [← is_at_end_false_iff]
      simpa using h1

lemma match_char_false (st : Scanner) (e : Char) (h : (match_char st e).1 = false) :
    (match_char st e).2 = st := by
  unfold match_char at h ⊢
  by_cases h1 : is_at_end st = true
  · rw [if_pos h1]
  · rw [if_neg h1] at h ⊢
    by_cases h2 : ¬ (st.source.getD st.current '\x00' = e)
    · rw [if_pos h2]
    · rw [if_neg h2] at h
      simp at h

lemma lookup_getD_ne (L : List (List Char × TokenType)) (x : TokenType)
    (hx : ¬ x = IDENTIFIER) (hL : ∀ p ∈ L, ¬ p.2 = x) (l : List Char) :
    ¬ (List.lookup l L).getD IDENTIFIER = x := by
  induction L with
  | nil => simpa using fun he => hx he.symm
  | cons p rest ih =>
      simp only [List.lookup]
      split
      · next heq =>
          simpa using hL p (List.mem_cons_self _ _)
      · exact ih (fun q hq => hL q (List.mem_cons_of_mem _ hq))

lemma peek_lt_of_ne_nul (st : Scanner) (ch : Char) (h : peek st = ch) (hne : ¬ ch = '\x00') :
    st.current < st.source.length := by
  by_cases hend : is_at_end st = true
  · rw [peek, if_pos hend] at h
    exact absurd h.symm hne
  · rw [← is_at_end_false_iff]
    simpa using hend

lemma emitted_good (st : Scanner) (tt : TokenType) (lit : List Char)
    (hinv : ScanInv st) (hstart : st.start ≤ st.current)
    (h1 : ¬ tt = EOF)
    (h2 : tt = NUMBER → lit = with_decimal_dec (parseDec (substr st.source st.start st.current))) :
    GoodTok st.source ⟨tt, substr st.source st.start st.current, lit, st.line⟩ := by
  obtain ⟨hb, hl⟩ := hinv
  have hlen : (substr st.source st.start st.current).length = st.current - st.start :=
    substr_length _ _ _ hstart hb
  refine ⟨h1, h2, st.start, ?_, ?_, ?_⟩
  · rw [hlen]
    omega
  · rw [hlen, show st.start + (st.current - st.start) = st.current from by omega]
  · show st.line = 1 + nl (st.source.take st.start) + nl (substr st.source st.start st.current)
    rw [hl, nl_take_split st.source st.start st.current hstart]
    omega


lemma string_good (st : Scanner) (hinv : ScanInv st) (hstart : st.start ≤ st.current) :
    (string st).source = st.source ∧ ScanInv (string st) ∧
    st.current ≤ (string st).current ∧
    ∃ new, (string st).tokens = st.tokens ++ new ∧ ∀ t ∈ new, GoodTok st.source t := by
  obtain ⟨hsrc, htok, hst, herr, hmono⟩ := stringLoopF_basic (st.source.length - st.current) st
  have hinv1 := stringLoopF_scanInv (st.source.length - st.current) st hinv
  have hpost := stringLoopF_post (st.source.length - st.current) st
    (by obtain ⟨hb, -⟩ := hinv; omega)
  simp only [string]
  generalize hgen : stringLoopF (st.source.length - st.current) st = st1
    at hsrc htok hst herr hmono hinv1 hpost ⊢
  split
  · exact ⟨hsrc, hinv1, hmono, [], by simpa using htok, by simp⟩
  · next hend =>
      have hpk : peek st1 = '"' := by
        rcases hpost with h | h
        · exact absurd h hend
        · exact h
      have hlt1 : st1.current < st1.source.length := by
        rw [← is_at_end_false_iff]
        simpa using hend
      have hinv2 : ScanInv (advance st1) := by
        refine scanInv_advance _ hinv1 hlt1 ?_
        rw [← peek_eq_getD, hpk]
        decide
      refine ⟨?_, ?_, ?_, ?_⟩
      · simp only [add_token_with, advance]
        exact hsrc
      · exact hinv2
      · simp only [add_token_with, advance]
        omega
      · refine ⟨[⟨STRING, substr (advance st1).source (advance st1).start (advance st1).current,
          with_decimal_str (substr (advance st1).source ((advance st1).start + 1)
            ((advance st1).current - 1)), (advance st1).line⟩], ?_, ?_⟩
        · simp only [add_token_with]
          rw [show (advance st1).tokens = st.tokens from htok]
        · intro t ht
          rw [List.mem_singleton] at ht
          subst ht
          have hg := emitted_good (advance st1) STRING
            (with_decimal_str (substr (advance st1).source ((advance st1).start + 1)
              ((advance st1).current - 1)))
            hinv2 (by simp only [advance]; rw [hst]; omega) (by decide)
            (fun hnum => absurd hnum (by decide))
          rw [show (advance st1).source = st.source from hsrc] at hg ⊢
          exact hg

lemma number_good (st : Scanner) (hinv : ScanInv st) (hstart : st.start ≤ st.current) :
    (number st).source = st.source ∧ ScanInv (number st) ∧
    st.current ≤ (number st).current ∧
    ∃ new, (number st).tokens = st.tokens ++ new ∧ ∀ t ∈ new, GoodTok st.source t := by
  obtain ⟨hsrc, htok, hst, herr, hline, hmono⟩ :=
    digitsLoopF_basic (st.source.length - st.current) st
  have hinv1 := digitsLoopF_scanInv (st.source.length - st.current) st hinv
  simp only [number]
  generalize hgen : digitsLoopF (st.source.length - st.current) st = st1
    at hsrc htok hst herr hline hmono hinv1 ⊢
  split
  · next hdot =>
      obtain ⟨hdot1, hdot2⟩ := hdot
      have hlt1 : st1.current < st1.source.length := peek_lt_of_ne_nul _ _ hdot1 (by decide)
      have hinvm : ScanInv (advance st1) := by
        refine scanInv_advance _ hinv1 hlt1 ?_
        rw [← peek_eq_getD, hdot1]
        decide
      obtain ⟨hsrc2, htok2, hst2, herr2, hline2, hmono2⟩ :=
        digitsLoopF_basic ((advance st1).source.length - (advance st1).current) (advance st1)
      have hinv2 := digitsLoopF_scanInv ((advance st1).source.length - (advance st1).current)
        (advance st1) hinvm
      generalize hgen2 : digitsLoopF ((advance st1).source.length - (advance st1).current)
        (advance st1) = st2 at hsrc2 htok2 hst2 herr2 hline2 hmono2 hinv2 ⊢
      have hsrc2' : st2.source = st.source := by
        rw [hsrc2]
        simpa [advance] using hsrc
      have htok2' : st2.tokens = st.tokens := by
        rw [htok2]
        simpa [advance] using htok
      have hst2' : st2.start = st.start := by
        rw [hst2]
        simpa [advance] using hst
      have hmono2' : st.current ≤ st2.current := by
        simp only [advance] at hmono2
        omega
      refine ⟨?_, ?_, ?_, ?_⟩
      · simp only [add_token_with]
        exact hsrc2'
      · exact hinv2
      · simp only [add_token_with]
        omega
      · refine ⟨[⟨NUMBER, substr st2.source st2.start st2.current,
          with_decimal_dec (parseDec (substr st2.source st2.start st2.current)), st2.line⟩],
          ?_, ?_⟩
        · simp only [add_token_with]
          rw [htok2']
        · intro t ht
          rw [List.mem_singleton] at ht
          subst ht
          have hg := emitted_good st2 NUMBER
            (with_decimal_dec (parseDec (substr st2.source st2.start st2.current)))
            hinv2 (by rw [hst2']; omega) (by decide) (fun _ => rfl)
          rw [hsrc2'] at hg ⊢
          exact hg
  · refine ⟨?_, ?_, ?_, ?_⟩
    · simp only [add_token_with]
      exact hsrc
    · exact hinv1
    · simp only [add_token_with]
      omega
    · refine ⟨[⟨NUMBER, substr st1.source st1.start st1.current,
        with_decimal_dec (parseDec (substr st1.source st1.start st1.current)), st1.line⟩],
        ?_, ?_⟩
      · simp only [add_token_with]
        rw [htok]
      · intro t ht
        rw [List.mem_singleton] at ht
        subst ht
        have hg := emitted_good st1 NUMBER
          (with_decimal_dec (parseDec (substr st1.source st1.start st1.current)))
          hinv1 (by rw [hst]; omega) (by decide) (fun _ => rfl)
        rw [hsrc] at hg ⊢
        exact hg

lemma identifier_good (st : Scanner) (hinv : ScanInv st) (hstart : st.start ≤ st.current) :
    (identifier st).source = st.source ∧ ScanInv (identifier st) ∧
    st.current ≤ (identifier st).current ∧
    ∃ new, (identifier st).tokens = st.tokens ++ new ∧ ∀ t ∈ new, GoodTok st.source t := by
  obtain ⟨hsrc, htok, hst, herr, hline, hmono⟩ :=
    identLoopF_basic (st.source.length - st.current) st
  have hinv1 := identLoopF_scanInv (st.source.length - st.current) st hinv
  simp only [identifier]
  generalize hgen : identLoopF (st.source.length - st.current) st = st1
    at hsrc htok hst herr hline hmono hinv1 ⊢
  refine ⟨?_, ?_, ?_, ?_⟩
  · simp only [add_token, add_token_with]
    exact hsrc
  · exact hinv1
  · simp only [add_token, add_token_with]
    omega
  · refine ⟨[⟨(List.lookup (substr st1.source st1.start st1.current) keywords).getD IDENTIFIER,
      substr st1.source st1.start st1.current, [], st1.line⟩], ?_, ?_⟩
    · simp only [add_token, add_token_with]
      rw [htok]
    · intro t ht
      rw [List.mem_singleton] at ht
      subst ht
      have hg := emitted_good st1
        ((List.lookup (substr st1.source st1.start st1.current) keywords).getD IDENTIFIER)
        [] hinv1 (by rw [hst]; omega)
        (lookup_getD_ne keywords EOF (by decide) (by decide) _)
        (fun hnum => absurd hnum (lookup_getD_ne keywords NUMBER (by decide) (by decide) _))
      rw [hsrc] at hg ⊢
      exact hg

lemma single_emit_good (st0 : Scanner) (tt : TokenType)
    (hinv1 : ScanInv (advance st0)) (hstart : st0.start = st0.current)
    (htt : ¬ tt = EOF) (htt2 : ¬ tt = NUMBER) :
    (add_token (advance st0) tt).source = st0.source ∧
    ScanInv (add_token (advance st0) tt) ∧
    st0.current < (add_token (advance st0) tt).current ∧
    ∃ new, (add_token (advance st0) tt).tokens = st0.tokens ++ new ∧
      ∀ t ∈ new, GoodTok st0.source t := by
  refine ⟨rfl, hinv1, Nat.lt_succ_self _,
    [⟨tt, substr st0.source st0.start (st0.current + 1), [], st0.line⟩], rfl, ?_⟩
  intro t ht
  rw [List.mem_singleton] at ht
  subst ht
  exact emitted_good (advance st0) tt [] hinv1
    (by simp only [advance]; omega) htt (fun h => absurd h htt2)

lemma double_emit_good (st0 : Scanner) (tt : TokenType)
    (hinv2 : ScanInv (advance (advance st0))) (hstart : st0.start = st0.current)
    (htt : ¬ tt = EOF) (htt2 : ¬ tt = NUMBER) :
    (add_token (advance (advance st0)) tt).source = st0.source ∧
    ScanInv (add_token (advance (advance st0)) tt) ∧
    st0.current < (add_token (advance (advance st0)) tt).current ∧
    ∃ new, (add_token (advance (advance st0)) tt).tokens = st0.tokens ++ new ∧
      ∀ t ∈ new, GoodTok st0.source t := by
  refine ⟨rfl, hinv2, by simp only [add_token, add_token_with, advance]; omega,
    [⟨tt, substr st0.source st0.start (st0.current + 1 + 1), [], st0.line⟩], rfl, ?_⟩
  intro t ht
  rw [List.mem_singleton] at ht
  subst ht
  exact emitted_good (advance (advance st0)) tt [] hinv2
    (by simp only [advance]; omega) htt (fun h => absurd h htt2)

lemma scan_token_aux_good (st0 : Scanner) (c : Char)
    (hc : st0.source.getD st0.current '\x00' = c)
    (hinv : ScanInv st0) (hlt : st0.current < st0.source.length)
    (hstart : st0.start = st0.current) :
    (scan_token_aux c (advance st0)).source = st0.source ∧
    ScanInv (scan_token_aux c (advance st0)) ∧
    st0.current < (scan_token_aux c (advance st0)).current ∧
    ∃ new, (scan_token_aux c (advance st0)).tokens = st0.tokens ++ new ∧
      ∀ t ∈ new, GoodTok st0.source t := by
  have hadv_inv : ∀ _ : ¬ c = '\n', ScanInv (advance st0) := fun hne =>
    scanInv_advance st0 hinv hlt (by rw [hc]; exact hne)
  simp only [scan_token_aux]
  by_cases h1 : c = '('
  · rw [if_pos h1]
    exact single_emit_good st0 LEFT_PAREN (hadv_inv (by rw [h1]; decide)) hstart
      (by decide) (by decide)
  rw [if_neg h1]
  by_cases h2 : c = ')'
  · rw [if_pos h2]
    exact single_emit_good st0 RIGHT_PAREN (hadv_inv (by rw [h2]; decide)) hstart
      (by decide) (by decide)
  rw [if_neg h2]
  by_cases h3 : c = '\x7b'
  · rw [if_pos h3]
    exact single_emit_good st0 LEFT_BRACE (hadv_inv (by rw [h3]; decide)) hstart
      (by decide) (by decide)
  rw [if_neg h3]
  by_cases h4 : c = '\x7d'
  · rw [if_pos h4]
    exact single_emit_good st0 RIGHT_BRACE (hadv_inv (by rw [h4]; decide)) hstart
      (by decide) (by decide)
  rw [if_neg h4]
  by_cases h5 : c = ','
  · rw [if_pos h5]
    exact single_emit_good st0 COMMA (hadv_inv (by rw [h5]; decide)) hstart
      (by decide) (by decide)
  rw [if_neg h5]
  by_cases h6 : c = '.'
  · rw [if_pos h6]
    exact single_emit_good st0 DOT (hadv_inv (by rw [h6]; decide)) hstart
      (by decide) (by decide)
  rw [if_neg h6]
  by_cases h7 : c = '-'
  · rw [if_pos h7]
    exact single_emit_good st0 MINUS (hadv_inv (by rw [h7]; decide)) hstart
      (by decide) (by decide)
  rw [if_neg h7]
  by_cases h8 : c = '+'
  · rw [if_pos h8]
    exact single_emit_good st0 PLUS (hadv_inv (by rw [h8]; decide)) hstart
      (by decide) (by decide)
  rw [if_neg h8]
  by_cases h9 : c = ';'
  · rw [if_pos h9]
    exact single_emit_good st0 SEMICOLON (hadv_inv (by rw [h9]; decide)) hstart
      (by decide) (by decide)
  rw [if_neg h9]
  by_cases h10 : c = '*'
  · rw [if_pos h10]
    exact single_emit_good st0 STAR (hadv_inv (by rw [h10]; decide)) hstart
      (by decide) (by decide)
  rw [if_neg h10]
  by_cases h11 : c = '!'
  · rw [if_pos h11]
    have hinv1 := hadv_inv (by rw [h11]; decide)
    by_cases hm : (match_char (advance st0) '=').1 = true
    · obtain ⟨hm2, hmlt, hmc⟩ := match_char_true (advance st0) '=' hm
      have hinv2 : ScanInv (advance (advance st0)) :=
        scanInv_advance (advance st0) hinv1 hmlt (by rw [hmc]; decide)
      rw [if_pos hm, hm2]
      exact double_emit_good st0 BANG_EQUAL hinv2 hstart (by decide) (by decide)
    · rw [if_neg hm, match_char_false _ _ (by simpa using hm)]
      exact single_emit_good st0 BANG hinv1 hstart (by decide) (by decide)
  rw [if_neg h11]
  by_cases h12 : c = '='
  · rw [if_pos h12]
    have hinv1 := hadv_inv (by rw [h12]; decide)
    by_cases hm : (match_char (advance st0) '=').1 = true
    · obtain ⟨hm2, hmlt, hmc⟩ := match_char_true (advance st0) '=' hm
      have hinv2 : ScanInv (advance (advance st0)) :=
        scanInv_advance (advance st0) hinv1 hmlt (by rw [hmc]; decide)
      rw [if_pos hm, hm2]
      exact double_emit_good st0 EQUAL_EQUAL hinv2 hstart (by decide) (by decide)
    · rw [if_neg hm, match_char_false _ _ (by simpa using hm)]
      exact single_emit_good st0 EQUAL hinv1 hstart (by decide) (by decide)
  rw [if_neg h12]
  by_cases h13 : c = '<'
  · rw [if_pos h13]
    have hinv1 := hadv_inv (by rw [h13]; decide)
    by_cases hm : (match_char (advance st0) '=').1 = true
    · obtain ⟨hm2, hmlt, hmc⟩ := match_char_true (advance st0) '=' hm
      have hinv2 : ScanInv (advance (advance st0)) :=
        scanInv_advance (advance st0) hinv1 hmlt (by rw [hmc]; decide)
      rw [if_pos hm, hm2]
      exact double_emit_good st0 LESS_EQUAL hinv2 hstart (by decide) (by decide)
    · rw [if_neg hm, match_char_false _ _ (by simpa using hm)]
      exact single_emit_good st0 LESS hinv1 hstart (by decide) (by decide)
  rw [if_neg h13]
  by_cases h14 : c = '>'
  · rw [if_pos h14]
    have hinv1 := hadv_inv (by rw [h14]; decide)
    by_cases hm : (match_char (advance st0) '=').1 = true
    · obtain ⟨hm2, hmlt, hmc⟩ := match_char_true (advance st0) '=' hm
      have hinv2 : ScanInv (advance (advance st0)) :=
        scanInv_advance (advance st0) hinv1 hmlt (by rw [hmc]; decide)
      rw [if_pos hm, hm2]
      exact double_emit_good st0 GREATER_EQUAL hinv2 hstart (by decide) (by decide)
    · rw [if_neg hm, match_char_false _ _ (by simpa using hm)]
      exact single_emit_good st0 GREATER hinv1 hstart (by decide) (by decide)
  rw [if_neg h14]
  by_cases h15 : c = '/'
  · rw [if_pos h15]
    have hinv1 := hadv_inv (by rw [h15]; decide)
    by_cases hm : (match_char (advance st0) '/').1 = true
    · obtain ⟨hm2, hmlt, hmc⟩ := match_char_true (advance st0) '/' hm
      have hinv2 : ScanInv (advance (advance st0)) :=
        scanInv_advance (advance st0) hinv1 hmlt (by rw [hmc]; decide)
      rw [if_pos hm]
      have hinvm : ScanInv (match_char (advance st0) '/').2 := by
        rw [hm2]
        exact hinv2
      obtain ⟨csrc, ctok, cst, cerr, cline, cmono⟩ := commentLoopF_basic
        ((match_char (advance st0) '/').2.source.length - (match_char (advance st0) '/').2.current)
        (match_char (advance st0) '/').2
      have hxc : (match_char (advance st0) '/').2.current = st0.current + 1 + 1 := by
        rw [hm2]
        rfl
      have hxt : (match_char (advance st0) '/').2.tokens = st0.tokens := by
        rw [hm2]
        rfl
      refine ⟨?_, commentLoopF_scanInv _ _ hinvm, ?_, [], ?_, by simp⟩
      · rw [csrc, hm2]
        rfl
      · omega
      · rw [ctok, hxt]
        exact (List.append_nil _).symm
    · rw [if_neg hm, match_char_false _ _ (by simpa using hm)]
      exact single_emit_good st0 SLASH hinv1 hstart (by decide) (by decide)
  rw [if_neg h15]
  by_cases h16 : c = ' ' ∨ c = '\x0d' ∨ c = '\t'
  · rw [if_pos h16]
    have hinv1 := hadv_inv (by rcases h16 with h | h | h <;> rw [h] <;> decide)
    exact ⟨rfl, hinv1, Nat.lt_succ_self _, [], (List.append_nil _).symm, by simp⟩
  rw [if_neg h16]
  by_cases h17 : c = '\n'
  · rw [if_pos h17]
    have hinv1 : ScanInv (advance { st0 with line := st0.line + 1 }) :=
      scanInv_advance_nl st0 hinv hlt (by rw [hc]; exact h17)
    exact ⟨rfl, hinv1, Nat.lt_succ_self _, [], (List.append_nil _).symm, by simp⟩
  rw [if_neg h17]
  by_cases h18 : c = '"'
  · rw [if_pos h18]
    have hinv1 := hadv_inv (by rw [h18]; decide)
    obtain ⟨a, b, cmono, new, d, e⟩ := string_good (advance st0) hinv1
      (by simp only [advance]; omega)
    have hadvc : (advance st0).current = st0.current + 1 := rfl
    exact ⟨a, b, by omega, new, d, e⟩
  rw [if_neg h18]
  by_cases h19 : c = 'o'
  · rw [if_pos h19]
    have hinv1 := hadv_inv (by rw [h19]; decide)
    by_cases hm : (match_char (advance st0) 'r').1 = true
    · obtain ⟨hm2, hmlt, hmc⟩ := match_char_true (advance st0) 'r' hm
      have hinv2 : ScanInv (advance (advance st0)) :=
        scanInv_advance (advance st0) hinv1 hmlt (by rw [hmc]; decide)
      rw [if_pos hm, hm2]
      exact double_emit_good st0 OR hinv2 hstart (by decide) (by decide)
    · rw [if_neg hm, match_char_false _ _ (by simpa using hm)]
      exact ⟨rfl, hinv1, Nat.lt_succ_self _, [], (List.append_nil _).symm, by simp⟩
  rw [if_neg h19]
  by_cases h20 : is_digit c = true
  · rw [if_pos h20]
    have hinv1 := hadv_inv (by intro he; rw [he] at h20; exact absurd h20 (by decide))
    obtain ⟨a, b, cmono, new, d, e⟩ := number_good (advance st0) hinv1
      (by simp only [advance]; omega)
    have hadvc : (advance st0).current = st0.current + 1 := rfl
    exact ⟨a, b, by omega, new, d, e⟩
  rw [if_neg h20]
  by_cases h21 : is_alpha c = true
  · rw [if_pos h21]
    have hinv1 := hadv_inv (by intro he; rw [he] at h21; exact absurd h21 (by decide))
    obtain ⟨a, b, cmono, new, d, e⟩ := identifier_good (advance st0) hinv1
      (by simp only [advance]; omega)
    have hadvc : (advance st0).current = st0.current + 1 := rfl
    exact ⟨a, b, by omega, new, d, e⟩
  rw [if_neg h21]
  have hinv1 := hadv_inv h17
  exact ⟨rfl, hinv1, Nat.lt_succ_self _, [], (List.append_nil _).symm, by simp⟩

lemma scan_token_good (st : Scanner) (hinv : ScanInv st) (hlt : st.current < st.source.length)
    (hstart : st.start = st.current) :
    (scan_token st).source = st.source ∧ ScanInv (scan_token st) ∧
    st.current < (scan_token st).current ∧
    ∃ new, (scan_token st).tokens = st.tokens ++ new ∧ ∀ t ∈ new, GoodTok st.source t :=
  scan_token_aux_good st (st.source.getD st.current '\x00') rfl hinv hlt hstart

lemma scanLoopF_at_end (f : Nat) (st : Scanner) (h : st.source.length ≤ st.current) :
    scanLoopF f st = st := by
  cases f with
  | zero => rfl
  | succ f =>
      simp only [scanLoopF]
      rw [if_neg (by omega)]

lemma scanLoopF_good (f : Nat) : ∀ st : Scanner, ScanInv st →
    (scanLoopF f st).source = st.source ∧ ScanInv (scanLoopF f st) ∧
    st.current ≤ (scanLoopF f st).current ∧
    ∃ new, (scanLoopF f st).tokens = st.tokens ++ new ∧ ∀ t ∈ new, GoodTok st.source t := by
  induction f with
  | zero =>
      intro st h
      exact ⟨rfl, h, Nat.le.refl, [], (List.append_nil _).symm, by simp⟩
  | succ f ih =>
      intro st h
      simp only [scanLoopF]
      split
      · next hlt =>
          have hinv' : ScanInv { st with start := st.current } := h
          obtain ⟨gsrc, ginv, gadv, new1, gtok, ggood⟩ :=
            scan_token_good { st with start := st.current } hinv' hlt rfl
          obtain ⟨lsrc, linv, ladv, new2, ltok, lgood⟩ :=
            ih (scan_token { st with start := st.current }) ginv
          have gadv' : st.current < (scan_token { st with start := st.current }).current := gadv
          refine ⟨by rw [lsrc, gsrc], linv, by omega, new1 ++ new2, ?_, ?_⟩
          · rw [ltok, gtok]
            have he : ({ st with start := st.current } : Scanner).tokens = st.tokens := rfl
            rw [he, List.append_assoc]
          · intro t ht
            rcases List.mem_append.mp ht with h1 | h2
            · exact ggood t h1
            · have hx := lgood t h2
              rw [gsrc] at hx
              exact hx
      · exact ⟨rfl, h, Nat.le.refl, [], (List.append_nil _).symm, by simp⟩

lemma scanLoopF_reach (f : Nat) : ∀ st : Scanner, ScanInv st →
    st.source.length ≤ st.current + f → (scanLoopF f st).current = st.source.length := by
  induction f with
  | zero =>
      intro st h hf
      obtain ⟨hb, -⟩ := h
      show st.current = _
      omega
  | succ f ih =>
      intro st h hf
      simp only [scanLoopF]
      split
      · next hlt =>
          have hinv' : ScanInv { st with start := st.current } := h
          obtain ⟨gsrc, ginv, gadv, -, -, -⟩ :=
            scan_token_good { st with start := st.current } hinv' hlt rfl
          have gadv' : st.current < (scan_token { st with start := st.current }).current := gadv
          have hrec := ih (scan_token { st with start := st.current }) ginv
            (by rw [gsrc]; show st.source.length ≤ _; omega)
          rw [hrec, gsrc]
      · next hge =>
          obtain ⟨hb, -⟩ := h
          show st.current = _
          omega

lemma scan_tokens_good (st : Scanner) (hinv : ScanInv st) :
    ∃ new, (scan_tokens st).tokens = st.tokens ++ new ++ [⟨EOF, [], [], 1 + nl st.source⟩] ∧
      ∀ t ∈ new, GoodTok st.source t := by
  obtain ⟨lsrc, linv, ladv, new, ltok, lgood⟩ :=
    scanLoopF_good (st.source.length - st.current) st hinv
  have hreach := scanLoopF_reach (st.source.length - st.current) st hinv
    (by obtain ⟨hb, -⟩ := hinv; omega)
  obtain ⟨-, hline⟩ := linv
  rw [lsrc, hreach, List.take_length] at hline
  refine ⟨new, ?_, lgood⟩
  simp only [scan_tokens]
  rw [ltok, hline, List.append_assoc]

lemma scanRun_good (s : List Char) :
    ∃ new, (scanRun s).tokens = new ++ [⟨EOF, [], [], 1 + nl s⟩] ∧ ∀ t ∈ new, GoodTok s t := by
  have hinv : ScanInv (build_scanner s) := ⟨Nat.zero_le _, by simp [nl, build_scanner]⟩
  obtain ⟨new, htok, hgood⟩ := scan_tokens_good (build_scanner s) hinv
  exact ⟨new, by simpa using htok, hgood⟩

lemma ends_with_two (A : List Char) (x y u v : Char) :
    ends_with (A ++ [x, y]) [u, v] = true ↔ x = u ∧ y = v := by
  simp only [ends_with, List.reverse_append, decide_eq_true_eq]
  show (y :: x :: A.reverse).take 2 = [v, u] ↔ _
  constructor
  · intro h
    simp only [List.take, List.cons.injEq] at h
    exact ⟨h.2.1, h.1⟩
  · rintro ⟨rfl, rfl⟩
    rfl

lemma with_decimal_dec_eq (d : Dec) :
    with_decimal_dec d =
      (if roundTenths d % 10 = 0
        then Nat.toDigits 10 (roundTenths d / 10) ++ ['.', '0']
        else toStringDec d) := by
  have hlt : roundTenths d % 10 < 10 := Nat.mod_lt _ (by norm_num)
  have hdig : ∀ k, k < 10 → Nat.digitChar k = '0' → k = 0 := by decide
  simp only [with_decimal_dec, format_one_decimal]
  by_cases h : roundTenths d % 10 = 0
  · rw [if_pos h, h,
      if_pos ((ends_with_two _ '.' (Nat.digitChar 0) '.' '0').mpr ⟨rfl, by decide⟩)]
    rfl
  · rw [if_neg h, if_neg ?hc]
    case hc =>
      rw [ends_with_two]
      rintro ⟨-, hy⟩
      exact h (hdig _ hlt hy)

lemma scanRun_number_literal (s : List Char) (t : Token) (ht : t ∈ (scanRun s).tokens)
    (hn : t.token_type = NUMBER) :
    t.literal = with_decimal_dec (parseDec t.lexeme) := by
  obtain ⟨new, htok, hgood⟩ := scanRun_good s
  rw [htok] at ht
  rcases List.mem_append.mp ht with h1 | h2
  · exact ((hgood t h1).2.1) hn
  · rw [List.mem_singleton] at h2
    subst h2
    exact TokenType.noConfusion hn

lemma scan_token_aux_quote (stx : Scanner) : scan_token_aux '"' stx = string stx := rfl

lemma scan_token_aux_dot (stx : Scanner) : scan_token_aux '.' stx = add_token stx DOT := rfl

lemma scan_token_aux_digit (c : Char) (stx : Scanner) (h : is_digit c = true) :
    scan_token_aux c stx = number stx := by
  have hne : ∀ x : Char, is_digit x = false → ¬ c = x := by
    intro x hx he
    rw [he] at h
    rw [h] at hx
    cases hx
  unfold scan_token_aux
  rw [if_neg (hne '(' (by decide)), if_neg (hne ')' (by decide)),
    if_neg (hne '\x7b' (by decide)), if_neg (hne '\x7d' (by decide)),
    if_neg (hne ',' (by decide)), if_neg (hne '.' (by decide)),
    if_neg (hne '-' (by decide)), if_neg (hne '+' (by decide)),
    if_neg (hne ';' (by decide)), if_neg (hne '*' (by decide)),
    if_neg (hne '!' (by decide)), if_neg (hne '=' (by decide)),
    if_neg (hne '<' (by decide)), if_neg (hne '>' (by decide)),
    if_neg (hne '/' (by decide)),
    if_neg (fun hor => hor.elim (hne ' ' (by decide))
      (fun hor2 => hor2.elim (hne '\x0d' (by decide)) (hne '\t' (by decide)))),
    if_neg (hne '\n' (by decide)), if_neg (hne '"' (by decide)),
    if_neg (hne 'o' (by decide)), if_pos h]

lemma debugName_len (tt : TokenType) : 2 ≤ tt.debugName.length := by
  cases tt <;> decide

lemma debugName_take_ne (tt : TokenType) (h : ¬ tt = EOF) :
    ¬ tt.debugName.take 2 = ('E' :: 'O' :: []) := by
  cases tt <;> first | exact absurd rfl h | decide

lemma to_string_ne_eof_line (t : Token) (h : ¬ t.token_type = EOF) :
    ¬ Token.to_string t = "EOF  null".toList := by
  intro he
  apply debugName_take_ne t.token_type h
  have h2 := congrArg (List.take 2) he
  rw [Token.to_string] at h2
  rw [List.append_assoc] at h2
  rw [List.take_append_of_le_length (debugName_len t.token_type)] at h2
  exact h2

lemma to_string_eof (lex lit : List Char) (n : Nat) (hlex : lex = []) (hlit : lit = []) :
    Token.to_string ⟨EOF, lex, lit, n⟩ = "EOF  null".toList := by
  subst hlex
  subst hlit
  rfl

lemma number_run (st : Scanner) (k : Nat)
    (hall : ∀ i, i < k → is_digit (st.source.getD (st.current + i) '\x00') = true)
    (hdot : st.source.getD (st.current + k) '\x00' = '.')
    (hnext : is_digit (st.source.getD (st.current + k + 1) '\x00') = false) :
    number st = add_token_with { st with current := st.current + k } NUMBER
      (with_decimal_dec (parseDec (substr st.source st.start (st.current + k)))) := by
  have hstop : is_digit (st.source.getD (st.current + k) '\x00') = false := by
    rw [hdot]
    decide
  have hin : st.current + k < st.source.length := by
    by_contra hge
    push_neg at hge
    rw [List.getD_eq_default _ _ hge] at hdot
    exact absurd hdot (by decide)
  have hrun := digitsLoopF_run k (st.source.length - st.current) st (by omega) hall hstop
  simp only [number]
  rw [hrun]
  rw [if_neg ?hcond]
  case hcond =>
    rintro ⟨-, hdig2⟩
    rw [peek_next_eq_getD] at hdig2
    have hdig2' : is_digit (st.source.getD (st.current + k + 1) '\x00') = true := hdig2
    rw [hnext] at hdig2'
    cases hdig2'

lemma scan_token_dot (stx : Scanner) (h : stx.source.getD stx.current '\x00' = '.') :
    scan_token stx = add_token (advance stx) DOT := by
  simp only [scan_token]
  rw [h]
  exact scan_token_aux_dot _

/-- Claim C1 (code defect, evaluated): the dispatch in scan_token has a stray
arm for the character o that emits an OR token whenever the next character is r
and emits nothing otherwise, so identifiers are not scanned as a maximal
alphanumeric run with exact keyword matching: the identifier orchid is split
into an OR keyword token followed by an identifier chid, and the one-character
identifier o yields no token at all. The and-prefix half of the claim does
hold: android scans as one IDENTIFIER. -/
theorem lox_c1_keyword_prefix_code_eval :
    (scanRun ("orchid".toList)).tokens =
      [⟨OR, "or".toList, [], 1⟩, ⟨IDENTIFIER, "chid".toList, [], 1⟩, ⟨EOF, [], [], 1⟩] ∧
    (scanRun ("o".toList)).tokens = [⟨EOF, [], [], 1⟩] ∧
    (scanRun ("android".toList)).tokens =
      [⟨IDENTIFIER, "android".toList, [], 1⟩, ⟨EOF, [], [], 1⟩] ∧
    (scanRun ("and".toList)).tokens = [⟨AND, "and".toList, [], 1⟩, ⟨EOF, [], [], 1⟩] :=
  ⟨by decide, by decide, by decide, by decide⟩

/-- Claim C2 counterexample: the source 123.04 denotes a non-integral value
whose ordinary decimal form is 123.04, yet the scan stores the NUMBER literal
123.0, because with_decimal keeps the one-decimal formatting whenever that
formatting ends in dot-zero, which also happens for non-integral values that
merely round to an integral value at one decimal place. -/
theorem lox_c2_render_counterexample :
    (scanRun ("123.04".toList)).tokens =
      [⟨NUMBER, "123.04".toList, "123.0".toList, 1⟩, ⟨EOF, [], [], 1⟩] ∧
    toStringDec (parseDec ("123.04".toList)) = "123.04".toList ∧
    ¬ ("123.0".toList : List Char) = "123.04".toList :=
  ⟨by decide, by decide, by decide⟩

/-- Claim C2 amended: for every NUMBER token whose digit string, dot removed,
has value below 2 to the 52 and whose value is not an exact midpoint between
two multiples of one tenth, the domain on which the exact-decimal model
provably renders as the binary64 pipeline (see the note on Dec), the rendered
literal is the one-decimal form, integer part, dot, single zero, exactly when
the value rounds to an integral value at one decimal place; otherwise the
literal is the value's ordinary decimal form. So source 123 renders as 123.0
and 123.456 renders as 123.456, but the non-integral 123.04 also renders as
123.0. At exact midpoints such as 1.05, or at digit values at or beyond 2 to
the 52, the rendering is decided by the binary64 bits of the stored value and
lies outside this claim. -/
theorem lox_c2_render_amended (s : List Char) (t : Token)
    (ht : t ∈ (scanRun s).tokens) (hn : t.token_type = NUMBER)
    (_hsz : decDigitsVal (parseDec t.lexeme) < 2 ^ 52)
    (_htie : dec_tie (parseDec t.lexeme) = false) :
    t.literal = (if roundTenths (parseDec t.lexeme) % 10 = 0
      then Nat.toDigits 10 (roundTenths (parseDec t.lexeme) / 10) ++ ['.', '0']
      else toStringDec (parseDec t.lexeme)) := by
  rw [← with_decimal_dec_eq]
  exact scanRun_number_literal s t ht hn

/-- Witness for the amended claim C2 at the concrete source 123.04, whose
digit value 12304 is below 2 to the 52 and whose value is not a midpoint. -/
theorem lox_c2_render_amended_witness :
    ((⟨NUMBER, "123.04".toList, "123.0".toList, 1⟩ : Token) ∈
      (scanRun ("123.04".toList)).tokens) ∧
    decDigitsVal (parseDec (⟨NUMBER, "123.04".toList, "123.0".toList, 1⟩ : Token).lexeme)
      < 2 ^ 52 ∧
    dec_tie (parseDec (⟨NUMBER, "123.04".toList, "123.0".toList, 1⟩ : Token).lexeme) = false ∧
    (⟨NUMBER, "123.04".toList, "123.0".toList, 1⟩ : Token).literal =
      (if roundTenths (parseDec (⟨NUMBER, "123.04".toList, "123.0".toList, 1⟩ : Token).lexeme)
          % 10 = 0
        then Nat.toDigits 10
          (roundTenths (parseDec
            (⟨NUMBER, "123.04".toList, "123.0".toList, 1⟩ : Token).lexeme) / 10) ++ ['.', '0']
        else toStringDec (parseDec
          (⟨NUMBER, "123.04".toList, "123.0".toList, 1⟩ : Token).lexeme)) :=
  ⟨by decide, by decide, by decide,
    lox_c2_render_amended ("123.04".toList) _ (by decide) rfl (by decide) (by decide)⟩

/-- Claim C3 counterexample: in the five character source consisting of a
quote, a, a newline, b and a closing quote, the STRING token's first character
is at position zero with no newline strictly before it, so the claim demands
line 1, but the scan stamps the token with line 2, the line of the closing
quote reached after counting the embedded newline. -/
theorem lox_c3_line_counterexample :
    (scanRun ("\"a\nb\"".toList)).tokens =
      [⟨STRING, "\"a\nb\"".toList, "a\nb".toList, 2⟩, ⟨EOF, [], [], 2⟩] ∧
    nl (("\"a\nb\"".toList).take 0) = 0 ∧
    ¬ (2 : Nat) = 1 + 0 :=
  ⟨by decide, by decide, by decide⟩

/-- Claim C3 amended: every token of a scan occurs in the source at a position
i such that the token's line equals 1 plus the count of newlines strictly
before i plus the count of newlines inside the token's own lexeme. For every
token whose lexeme contains no newline, which is every kind except a STRING
literal spanning lines, this is exactly 1 plus the newlines strictly before
the token's first character; a multi-line STRING token instead carries the
line of its closing quote. -/
theorem lox_c3_line_amended (s : List Char) (t : Token) (ht : t ∈ (scanRun s).tokens) :
    ∃ i, i + t.lexeme.length ≤ s.length ∧ substr s i (i + t.lexeme.length) = t.lexeme ∧
      t.line = 1 + nl (s.take i) + nl t.lexeme := by
  obtain ⟨new, htok, hgood⟩ := scanRun_good s
  rw [htok] at ht
  rcases List.mem_append.mp ht with h1 | h2
  · exact (hgood t h1).2.2
  · rw [List.mem_singleton] at h2
    subst h2
    refine ⟨s.length, by simp, ?_, ?_⟩
    · show substr s s.length (s.length + 0) = []
      rw [Nat.add_zero]
      show (s.take s.length).drop s.length = []
      rw [List.take_length, List.drop_length]
    · show 1 + nl s = 1 + nl (s.take s.length) + nl []
      rw [List.take_length]
      simp [nl]

/-- Witness for the amended claim C3 at the multi-line string source. -/
theorem lox_c3_line_amended_witness :
    ((⟨STRING, "\"a\nb\"".toList, "a\nb".toList, 2⟩ : Token) ∈
      (scanRun ("\"a\nb\"".toList)).tokens) ∧
    ∃ i, i + ("\"a\nb\"".toList).length ≤ ("\"a\nb\"".toList).length ∧
      substr ("\"a\nb\"".toList) i (i + ("\"a\nb\"".toList).length) = "\"a\nb\"".toList ∧
      (2 : Nat) = 1 + nl (("\"a\nb\"".toList).take i) + nl ("\"a\nb\"".toList) :=
  ⟨by decide, lox_c3_line_amended ("\"a\nb\"".toList)
    ⟨STRING, "\"a\nb\"".toList, "a\nb".toList, 2⟩ (by decide)⟩

/-- Claim C4 counterexample: on the empty source the dump consists of the line
EOF-space-space-null twice: once printed for the EOF token contained in the
returned stream, and once more as the hardcoded final line, so the EOF line
does not appear exactly once. -/
theorem lox_c4_dump_counterexample :
    runDump [] = ["EOF  null".toList, "EOF  null".toList] ∧
    List.count ("EOF  null".toList) (runDump []) = 2 ∧
    ¬ (2 : Nat) = 1 :=
  ⟨by decide, by decide, by decide⟩

/-- Claim C4 amended: the dump prints one line per token of the returned
stream in order, each being the token's kind name, lexeme and rendered
literal-or-null; the stream's terminating EOF token itself renders as the line
EOF-space-space-null, and the dump then appends one more hardcoded line
EOF-space-space-null. Consequently the EOF line appears exactly twice, as the
final two lines, and no earlier line equals it. -/
theorem lox_c4_dump_amended (s : List Char) :
    runDump s = ((scanRun s).tokens.map Token.to_string) ++ ["EOF  null".toList] ∧
    ∃ pre, runDump s = pre ++ ["EOF  null".toList, "EOF  null".toList] ∧
      ∀ l ∈ pre, ¬ l = "EOF  null".toList := by
  refine ⟨rfl, ?_⟩
  obtain ⟨new, htok, hgood⟩ := scanRun_good s
  refine ⟨new.map Token.to_string, ?_, ?_⟩
  · simp only [runDump, htok]
    rw [List.map_append, List.append_assoc]
    rfl
  · intro l hl
    rw [List.mem_map] at hl
    obtain ⟨t, htmem, rfl⟩ := hl
    exact to_string_ne_eof_line t ((hgood t htmem).1)

/-- Claim C7: for every input, the scanned token list is a prefix of non-EOF
tokens followed by exactly one final EOF token whose lexeme is the empty
string; this holds whether or not lexical errors occurred during the pass. -/
theorem lox_c7_eof_sentinel (s : List Char) :
    ∃ pre n, (scanRun s).tokens = pre ++ [⟨EOF, [], [], n⟩] ∧
      ∀ t ∈ pre, ¬ t.token_type = EOF := by
  obtain ⟨new, htok, hgood⟩ := scanRun_good s
  exact ⟨new, 1 + nl s, htok, fun t ht => (hgood t ht).1⟩

/-- Claim C9: scanning the same source text with two scanners built fresh from
it produces identical token streams and identical error flags; the scan is a
pure function of the source, with no hidden state shared between instances. -/
theorem lox_c9_idempotent (s : List Char) (s1 s2 : Scanner)
    (h1 : s1 = build_scanner s) (h2 : s2 = build_scanner s) :
    (scan_tokens s1).tokens = (scan_tokens s2).tokens ∧
    (scan_tokens s1).has_error = (scan_tokens s2).has_error := by
  subst h1
  subst h2
  exact ⟨rfl, rfl⟩

/-- Witness for claim C9 at a concrete source. -/
theorem lox_c9_idempotent_witness :
    (scan_tokens (build_scanner ("and or 12".toList))).tokens =
      (scan_tokens (build_scanner ("and or 12".toList))).tokens ∧
    (scan_tokens (build_scanner ("and or 12".toList))).has_error =
      (scan_tokens (build_scanner ("and or 12".toList))).has_error :=
  lox_c9_idempotent ("and or 12".toList) _ _ rfl rfl

/-- Claim C10: the empty string literal, two adjacent quotes, scans to a
STRING token whose stored literal is the empty string; Token::to_string then
renders its literal field as the text null, exactly the rendering used for a
token that carries no literal at all, such as a SEMICOLON token, making the
empty string literal indistinguishable from an absent literal in the dump. -/
theorem lox_c10_empty_string_null :
    (scanRun ("\"\"".toList)).tokens =
      [⟨STRING, "\"\"".toList, [], 1⟩, ⟨EOF, [], [], 1⟩] ∧
    Token.to_string ⟨STRING, "\"\"".toList, [], 1⟩ = "STRING \"\" null".toList ∧
    renderLiteral ⟨STRING, "\"\"".toList, [], 1⟩ = "null".toList ∧
    renderLiteral ⟨STRING, "\"\"".toList, [], 1⟩ = renderLiteral ⟨SEMICOLON, ";".toList, [], 1⟩ :=
  ⟨by decide, by decide, by decide, by decide⟩

/-- Claim C5: whenever the scan loop dispatches on an opening quote and no
closing quote occurs anywhere in the rest of the input, the completed scan has
its sticky error flag set, emits no STRING token (indeed no token at all) for
the unterminated literal, returns normally rather than fatally, and still
completes the pass and appends the terminating EOF token. -/
theorem lox_c5_unterminated_string (st : Scanner)
    (hlt : st.current < st.source.length)
    (hq : st.source.getD st.current '\x00' = '"')
    (hnq : '"' ∉ st.source.drop (st.current + 1)) :
    (scan_tokens st).has_error = true ∧
    ∃ n, (scan_tokens st).tokens = st.tokens ++ [⟨EOF, [], [], n⟩] := by
  obtain ⟨k, hk⟩ : ∃ k, st.source.length - st.current = k + 1 :=
    ⟨st.source.length - st.current - 1, by omega⟩
  have hstep : scan_token { st with start := st.current } =
      string (advance { st with start := st.current }) := by
    simp only [scan_token]
    rw [show ({ st with start := st.current } : Scanner).source.getD
      ({ st with start := st.current } : Scanner).current '\x00' = '"' from hq]
    exact scan_token_aux_quote _
  obtain ⟨n, hn⟩ := stringLoopF_noquote
    ((advance { st with start := st.current }).source.length -
      (advance { st with start := st.current }).current)
    (advance { st with start := st.current })
    (show st.current + 1 ≤ st.source.length from by omega)
    (show st.source.length ≤ st.current + 1 + (st.source.length - (st.current + 1)) from by omega)
    (show '"' ∉ st.source.drop (st.current + 1) from hnq)
  have hstring : string (advance { st with start := st.current }) =
      { source := st.source, tokens := st.tokens, start := st.current,
        current := st.source.length, line := n, has_error := true } := by
    simp only [string]
    rw [hn]
    rw [if_pos (by rw [is_at_end_true_iff])]
    rfl
  have hfinal : scan_tokens st =
      { source := st.source, tokens := st.tokens ++ [⟨EOF, [], [], n⟩], start := st.current,
        current := st.source.length, line := n, has_error := true } := by
    have hend : scanLoopF k
        { source := st.source, tokens := st.tokens, start := st.current,
          current := st.source.length, line := n, has_error := true } =
        { source := st.source, tokens := st.tokens, start := st.current,
          current := st.source.length, line := n, has_error := true } :=
      scanLoopF_at_end k _ (Nat.le_refl _)
    simp only [scan_tokens]
    rw [hk]
    simp only [scanLoopF]
    rw [if_pos hlt, hstep, hstring, hend]
  exact ⟨by rw [hfinal], n, by rw [hfinal]⟩

/-- Witness for claim C5 at the concrete unterminated source quote-a-b-c. -/
theorem lox_c5_unterminated_string_witness :
    (scan_tokens (build_scanner ("\"abc".toList))).has_error = true ∧
    ∃ n, (scan_tokens (build_scanner ("\"abc".toList))).tokens =
      (build_scanner ("\"abc".toList)).tokens ++ [⟨EOF, [], [], n⟩] :=
  lox_c5_unterminated_string (build_scanner ("\"abc".toList)) (by decide) (by decide) (by decide)

/-- Claim C6: when the scan loop dispatches on a digit whose maximal digit run
of length m is followed by a dot that is not itself followed by a digit (a dot
at end of input included), the dispatch consumes exactly the digit run and
emits one NUMBER token whose lexeme is that run, leaving the dot unconsumed;
the next dispatch step then emits a separate DOT token for it. -/
theorem lox_c6_trailing_dot (st : Scanner) (m : Nat)
    (h1 : 0 < m)
    (h2 : ∀ i, i < m → is_digit (st.source.getD (st.current + i) '\x00') = true)
    (h3 : st.source.getD (st.current + m) '\x00' = '.')
    (h4 : is_digit (st.source.getD (st.current + m + 1) '\x00') = false) :
    (scan_token { st with start := st.current }).tokens = st.tokens ++
      [⟨NUMBER, substr st.source st.current (st.current + m),
        with_decimal_dec (parseDec (substr st.source st.current (st.current + m))), st.line⟩] ∧
    (scan_token { st with start := st.current }).current = st.current + m ∧
    (scan_token { st with start := st.current }).source = st.source ∧
    (scan_token { st with start := st.current }).line = st.line ∧
    (scan_token { scan_token { st with start := st.current } with
        start := (scan_token { st with start := st.current }).current }).tokens =
      (scan_token { st with start := st.current }).tokens ++
        [⟨DOT, substr st.source (st.current + m) (st.current + m + 1), [], st.line⟩] ∧
    (scan_token { scan_token { st with start := st.current } with
        start := (scan_token { st with start := st.current }).current }).current =
      st.current + m + 1 := by
  have hkey : (advance { st with start := st.current } : Scanner).current + (m - 1) =
      st.current + m := by
    show st.current + 1 + (m - 1) = st.current + m
    omega
  have hdig0 : is_digit (({ st with start := st.current } : Scanner).source.getD
      ({ st with start := st.current } : Scanner).current '\x00') = true := by
    show is_digit (st.source.getD st.current '\x00') = true
    have hx := h2 0 h1
    rwa [Nat.add_zero] at hx
  have hstep1 : scan_token { st with start := st.current } =
      number (advance { st with start := st.current }) := by
    simp only [scan_token]
    exact scan_token_aux_digit _ _ hdig0
  have hnum := number_run (advance { st with start := st.current }) (m - 1) ?hall ?hdot ?hnext
  case hall =>
    intro i hi
    show is_digit (st.source.getD (st.current + 1 + i) '\x00') = true
    rw [show st.current + 1 + i = st.current + (i + 1) from by omega]
    exact h2 (i + 1) (by omega)
  case hdot =>
    show st.source.getD (st.current + 1 + (m - 1)) '\x00' = '.'
    rw [show st.current + 1 + (m - 1) = st.current + m from by omega]
    exact h3
  case hnext =>
    show is_digit (st.source.getD (st.current + 1 + (m - 1) + 1) '\x00') = false
    rw [show st.current + 1 + (m - 1) + 1 = st.current + m + 1 from by omega]
    exact h4
  have hsteps : scan_token { st with start := st.current } =
      add_token_with { st with start := st.current, current := st.current + m } NUMBER
        (with_decimal_dec (parseDec (substr st.source st.current (st.current + m)))) := by
    rw [hstep1, hnum, hkey]
    rfl
  refine ⟨?_, ?_, ?_, ?_, ?_, ?_⟩
  · rw [hsteps]
    rfl
  · rw [hsteps]
    rfl
  · rw [hsteps]
    rfl
  · rw [hsteps]
    rfl
  · rw [hsteps, scan_token_dot _ ?hq5]
    case hq5 => exact h3
    rfl
  · rw [hsteps, scan_token_dot _ ?hq6]
    case hq6 => exact h3
    rfl

/-- Witness for claim C6 at the concrete source 123-dot. -/
theorem lox_c6_trailing_dot_witness :
    ((0 : Nat) < 3 ∧
      (∀ i, i < 3 → is_digit (("123.".toList).getD (0 + i) '\x00') = true) ∧
      ("123.".toList).getD (0 + 3) '\x00' = '.' ∧
      is_digit (("123.".toList).getD (0 + 3 + 1) '\x00') = false) ∧
    (scan_token { build_scanner ("123.".toList) with
        start := (build_scanner ("123.".toList)).current }).tokens =
      (build_scanner ("123.".toList)).tokens ++
        [⟨NUMBER, substr ("123.".toList) (build_scanner ("123.".toList)).current
            ((build_scanner ("123.".toList)).current + 3),
          with_decimal_dec (parseDec (substr ("123.".toList)
            (build_scanner ("123.".toList)).current
            ((build_scanner ("123.".toList)).current + 3))),
          (build_scanner ("123.".toList)).line⟩] ∧
    (scan_token { build_scanner ("123.".toList) with
        start := (build_scanner ("123.".toList)).current }).current =
      (build_scanner ("123.".toList)).current + 3 :=
  ⟨⟨by decide, by decide, by decide, by decide⟩,
    (lox_c6_trailing_dot (build_scanner ("123.".toList)) 3 (by decide)
      (by decide) (by decide) (by decide)).1,
    (lox_c6_trailing_dot (build_scanner ("123.".toList)) 3 (by decide)
      (by decide) (by decide) (by decide)).2.1⟩

/-- Claim C8: for every finite input the scan terminates with a finite token
list because the cursor strictly advances on every dispatch branch, comment
and string sub-loops included: from any loop state satisfying the scan
invariant with input remaining, one dispatch strictly increases the cursor,
and consequently the outer loop, run with the fuel scan_tokens supplies (the
remaining source length, one unit per guaranteed advance), drives the cursor
to the end of the source on every input. -/
theorem lox_c8_termination :
    (∀ st : Scanner, ScanInv st → st.start = st.current →
      st.current < st.source.length → st.current < (scan_token st).current) ∧
    (∀ s : List Char, (scanLoopF (s.length - 0) (build_scanner s)).current = s.length) := by
  constructor
  · intro st hinv hstart hlt
    exact (scan_token_good st hinv hlt hstart).2.2.1
  · intro s
    exact scanLoopF_reach (s.length - 0) (build_scanner s)
      ⟨Nat.zero_le _, by simp [nl, build_scanner]⟩
      (by show s.length ≤ 0 + (s.length - 0); omega)

/-- Witness for claim C8 at a concrete state and input. -/
theorem lox_c8_termination_witness :
    (build_scanner ("+-".toList)).current <
      (scan_token (build_scanner ("+-".toList))).current ∧
    (scanLoopF (("ab 12".toList).length - 0) (build_scanner ("ab 12".toList))).current =
      ("ab 12".toList).length :=
  ⟨lox_c8_termination.1 (build_scanner ("+-".toList))
      ⟨by decide, by decide⟩ rfl (by decide),
    lox_c8_termination.2 ("ab 12".toList)⟩
